import Mathlib

/-!
Verification of the macroeco repository against its specification.

Shallow embedding conventions:
* Python floats are modelled as `ℚ` (the claims under scrutiny are about exact
  algebraic behaviour, not rounding).
* Fallible Python code is modelled with `Except PyErr`; each constructor of
  `PyErr` names the Python exception raised at the corresponding point.
* numpy's elementwise `exp` is abstracted by a function parameter `E : ℚ → ℚ`;
  the theorems assume only the facts about `exp` the code relies on
  (positivity, monotonicity), all true of the real exponential.
-/

set_option linter.unusedVariables false

/-- Python exceptions observed by the modelled code paths. -/
inductive PyErr
  /-- `TypeError` (e.g. calling a function with a missing required positional
  argument, or iterating over `None`). -/
  | typeError
  /-- `ZeroDivisionError`. -/
  | zeroDivision
  /-- `ValueError("Parameter must be array-like object")` raised by
  `aic_weights`; the spec calls this error kind InvalidInput. -/
  | invalidInput
  /-- `ValueError` raised by `np.min` on an empty array. -/
  | emptyArray
  /-- `NotImplementedError`; the spec calls this error kind NotSupported. -/
  | notImplemented
  deriving DecidableEq

/-! ## Statistics helpers (`scripts/macroeco/analyze/macroeco_stats.py`) -/

/-- Embeds the body of `aic(neg_L, k, n, corrected=True)`:
`aic = (2 * neg_L) + (2 * k); return aic`.  The parameters `n` and
`corrected` appear in the Python signature but are unused in the body. -/
def aic (neg_L k n : ℚ) (corrected : Bool) : ℚ :=
  2 * neg_L + 2 * k

/-- Python call semantics for `aic`: the declaration
`def aic(neg_L, k, n, corrected=True)` has three parameters without default
values, so a call supplying fewer than three positional arguments raises
`TypeError`.  A three-argument call binds `corrected` to its default `True`.
(No caller in the repository passes four positional arguments.) -/
def aic_call (args : List ℚ) : Except PyErr ℚ :=
  match args with
  | [neg_L, k, n] => .ok (aic neg_L k n true)
  | _ => .error .typeError

/-- Embeds `aicc(neg_LL, k, n)`: `aic_value = aic(neg_LL, k)` (a two-argument
call), then `return aic_value + ((2 * k * (k + 1)) / (n - k - 1))`, where a
zero denominator would raise `ZeroDivisionError`. -/
def aicc (neg_LL k n : ℚ) : Except PyErr ℚ := do
  let aic_value ← aic_call [neg_LL, k]
  if n - k - 1 = 0 then
    .error .zeroDivision
  else
    .ok (aic_value + (2 * k * (k + 1)) / (n - k - 1))

/-- The argument of `aic_weights`: Python distinguishes a bare number
(`type(x) == float or type(x) == int`) from an array-like sequence. -/
inductive AicInput
  | scalar (x : ℚ)
  | seq (xs : List ℚ)

/-- `np.min` over a list: raises `ValueError` (here `none`) on an empty
array, otherwise the least element. -/
def npmin : List ℚ → Option ℚ
  | [] => none
  | x :: xs => some (xs.foldl min x)

/-- The arithmetic core of `aic_weights` given the minimum `m`:
`delta = [x - minimum for x in aic_values]`, `values = np.exp(-delta / 2)`
(elementwise), `weights = [x / sum(values) for x in values]`.
`E` abstracts `np.exp`.  (With `E` positive the divisor is nonzero; Lean's
total division by zero is never exercised under the theorems' hypotheses.) -/
def aicw (E : ℚ → ℚ) (xs : List ℚ) (m : ℚ) : List ℚ :=
  let delta := xs.map (fun x => x - m)
  let values := delta.map (fun d => E (-d / 2))
  values.map (fun x => x / values.sum)

/-- The list returned by a successful `aic_weights` call. -/
def aic_weights_val (E : ℚ → ℚ) (xs : List ℚ) : List ℚ :=
  aicw E xs ((npmin xs).getD 0)

/-- Embeds `aic_weights(aic_values)`: a scalar argument raises
`ValueError("Parameter must be array-like object")`; otherwise
`minimum = np.min(aic_values)` (raising on an empty array) and the weights
are computed as in `aicw`. -/
def aic_weights (E : ℚ → ℚ) : AicInput → Except PyErr (List ℚ)
  | .scalar _ => .error .invalidInput
  | .seq xs =>
    match npmin xs with
    | none => .error .emptyArray
    | some _ => .ok (aic_weights_val E xs)

/-! ## compare_ear division-list handling (`scripts/compare_ear.py`) -/

/-- Embeds the block in compare_ear's dataset loop:
`try: params['list_of_divisions_on_columns'].index((1,1))` /
`except: logging.info(...); params['list_of_divisions_on_columns'].append((1,1))`.
`list.index` succeeds exactly when `(1,1)` is a member.  The returned `Bool`
records whether the log notice was emitted (i.e. the append happened). -/
def ensure_base_division (l : List (ℤ × ℤ)) : List (ℤ × ℤ) × Bool :=
  if (1, 1) ∈ l then (l, false) else (l ++ [(1, 1)], true)

/-! ## Theorems for the statistics helpers -/

/-- C1: the claim says `aicc(neg_LL, k, n)` returns
`aic(neg_LL, k) + 2k(k+1)/(n-k-1)` whenever `n - k - 1 ≠ 0` and fails exactly
when `n - k - 1 = 0`.  In the code, `aicc` calls `aic(neg_LL, k)` with only
two positional arguments while `aic` requires three, so every call of `aicc`
raises `TypeError` before any arithmetic happens — in particular at inputs
with `n - k - 1 ≠ 0` such as `(10, 2, 6)`. -/
theorem aicc_always_raises_typeerror :
    (∀ neg_LL k n : ℚ, aicc neg_LL k n = .error .typeError) ∧
    aicc 10 2 6 = .error .typeError ∧ (6 : ℚ) - 2 - 1 ≠ 0 := by
  refine ⟨fun neg_LL k n => rfl, rfl, by norm_num⟩

/-- C5: `aic(neg_L, k, n, corrected)` returns exactly `2*neg_L + 2*k`, and
neither `n` nor `corrected` alters the result. -/
theorem aic_ignores_n_and_corrected :
    ∀ (neg_L k n n' : ℚ) (c c' : Bool),
      aic neg_L k n c = 2 * neg_L + 2 * k ∧
      aic neg_L k n c = aic neg_L k n' c' := by
  intro neg_L k n n' c c'
  exact ⟨rfl, rfl⟩

/-- C6: `aic_weights` on a sequence of three equal AIC values returns three
equal weights (each `1/3`, so they sum to 1), and on a scalar such as `5`
fails with the InvalidInput error instead of returning weights.  The only
fact about `exp` used is `E 0 ≠ 0`. -/
theorem aic_weights_equal_values_and_scalar (E : ℚ → ℚ) (v : ℚ)
    (hE : E 0 ≠ 0) :
    aic_weights E (.seq [v, v, v]) = .ok [1/3, 1/3, 1/3] ∧
    aic_weights E (.scalar 5) = .error .invalidInput := by
  have h3 : E 0 / (E 0 + (E 0 + E 0)) = 1 / 3 := by
    rw [show E 0 + (E 0 + E 0) = E 0 * 3 by ring, div_mul_eq_div_div,
      div_self hE]
  constructor
  · simp [aic_weights, npmin, aic_weights_val, aicw, h3]
  · rfl

/-- Witness for C6 at `E = fun _ => 1`, `v = 7`. -/
theorem aic_weights_equal_values_and_scalar_witness :
    aic_weights (fun _ => 1) (.seq [7, 7, 7]) = .ok [1/3, 1/3, 1/3] ∧
    aic_weights (fun _ => 1) (.scalar 5) = .error .invalidInput :=
  aic_weights_equal_values_and_scalar (fun _ => 1) 7 one_ne_zero

/-- C8: the division list processed by compare_ear always contains the
undivided division `(1,1)` afterwards; it is unchanged (no log notice) when
`(1,1)` was already present, and otherwise `(1,1)` is appended and the log
notice is emitted. -/
theorem ensure_base_division_spec :
    ∀ l : List (ℤ × ℤ),
      (1, 1) ∈ (ensure_base_division l).1 ∧
      ((1, 1) ∈ l → ensure_base_division l = (l, false)) ∧
      ((1, 1) ∉ l → ensure_base_division l = (l ++ [(1, 1)], true)) := by
  intro l
  unfold ensure_base_division
  by_cases h : (1, 1) ∈ l
  · rw [if_pos h]
    exact ⟨h, fun _ => rfl, fun hn => absurd h hn⟩
  · rw [if_neg h]
    exact ⟨List.mem_append.mpr (Or.inr (List.mem_cons_self (1, 1) [])),
      fun hm => absurd hm h, fun _ => rfl⟩

/-- Witness for C8 at the concrete list `[(2,2)]`, which lacks `(1,1)`. -/
theorem ensure_base_division_spec_witness :
    (1, 1) ∈ (ensure_base_division [(2, 2)]).1 ∧
    ensure_base_division [(2, 2)] = ([(2, 2), (1, 1)], true) :=
  ⟨(ensure_base_division_spec [(2, 2)]).1,
   (ensure_base_division_spec [(2, 2)]).2.2 (by decide)⟩

/-! ## General properties of the AIC weights (C9) -/

/-- `aicw` written as a single map: each weight is `E (-(x - m)/2)` divided
by the sum of all such values. -/
theorem aicw_eq_map (E : ℚ → ℚ) (xs : List ℚ) (m : ℚ) :
    aicw E xs m =
      (xs.map (fun x => E (-(x - m) / 2))).map
        (fun v => v / (xs.map (fun x => E (-(x - m) / 2))).sum) := by
  simp only [aicw, List.map_map, Function.comp_def]

/-- Summing a list divided elementwise by a constant. -/
theorem sum_map_div (l : List ℚ) (S : ℚ) :
    (l.map (fun x => x / S)).sum = l.sum / S := by
  induction l with
  | nil => simp
  | cons a t ih => simp [ih, add_div]

/-- `getD` through an elementwise division. -/
theorem getD_div (vals : List ℚ) (S : ℚ) (i : ℕ) (hi : i < vals.length) :
    (vals.map (fun v => v / S)).getD i 0 = vals.getD i 0 / S := by
  rw [List.getD_eq_getElem _ _ (by simpa using hi), List.getElem_map,
    List.getD_eq_getElem _ _ hi]

/-- `getD` through a map, inside the bounds. -/
theorem getD_map (f : ℚ → ℚ) (l : List ℚ) (i : ℕ) (hi : i < l.length) :
    (l.map f).getD i 0 = f (l.getD i 0) := by
  rw [List.getD_eq_getElem _ _ (by simpa using hi), List.getElem_map,
    List.getD_eq_getElem _ _ hi]

/-- Core properties of the weight computation, for any subtracted value `m`:
the weights sum to 1, are positive, have the input's length, and are
anti-monotone in the input AIC values. -/
theorem aicw_props (E : ℚ → ℚ) (xs : List ℚ) (m : ℚ)
    (hpos : ∀ q, 0 < E q) (hmono : ∀ a b : ℚ, a ≤ b → E a ≤ E b)
    (hne : xs ≠ []) :
    (aicw E xs m).sum = 1 ∧
    (∀ w ∈ aicw E xs m, 0 < w) ∧
    (aicw E xs m).length = xs.length ∧
    (∀ i j : ℕ, i < xs.length → j < xs.length →
      xs.getD i 0 ≤ xs.getD j 0 →
      (aicw E xs m).getD j 0 ≤ (aicw E xs m).getD i 0) := by
  have hvne : xs.map (fun x => E (-(x - m) / 2)) ≠ [] := by
    intro hcon
    exact hne (List.map_eq_nil_iff.mp hcon)
  have hvpos : ∀ v ∈ xs.map (fun x => E (-(x - m) / 2)), 0 < v := by
    intro v hv
    rcases List.mem_map.mp hv with ⟨x, _, rfl⟩
    exact hpos _
  have hS : 0 < (xs.map (fun x => E (-(x - m) / 2))).sum :=
    List.sum_pos _ hvpos hvne
  refine ⟨?_, ?_, ?_, ?_⟩
  · rw [aicw_eq_map, sum_map_div, div_self (ne_of_gt hS)]
  · intro w hw
    rw [aicw_eq_map] at hw
    rcases List.mem_map.mp hw with ⟨v, hv, rfl⟩
    exact div_pos (hvpos v hv) hS
  · rw [aicw_eq_map]
    simp
  · intro i j hi hj hle
    have hiv : i < (xs.map (fun x => E (-(x - m) / 2))).length := by
      simpa using hi
    have hjv : j < (xs.map (fun x => E (-(x - m) / 2))).length := by
      simpa using hj
    rw [aicw_eq_map, getD_div _ _ _ hjv, getD_div _ _ _ hiv,
      getD_map _ _ _ hj, getD_map _ _ _ hi]
    exact div_le_div_of_nonneg_right
      (hmono _ _ (by linarith)) (le_of_lt hS)

/-- C9: on every nonempty sequence of AIC values, `aic_weights` succeeds, the
returned weights sum to 1, every weight is strictly positive, the weights are
anti-monotone in the AIC values, and an entry with the minimal AIC value
receives the maximal weight.  `E` abstracts `np.exp`; the hypotheses are its
positivity and monotonicity. -/
theorem aic_weights_seq_props (E : ℚ → ℚ) (xs : List ℚ)
    (hpos : ∀ q, 0 < E q) (hmono : ∀ a b : ℚ, a ≤ b → E a ≤ E b)
    (hne : xs ≠ []) :
    aic_weights E (.seq xs) = .ok (aic_weights_val E xs) ∧
    (aic_weights_val E xs).sum = 1 ∧
    (∀ w ∈ aic_weights_val E xs, 0 < w) ∧
    (aic_weights_val E xs).length = xs.length ∧
    (∀ i j : ℕ, i < xs.length → j < xs.length →
      xs.getD i 0 ≤ xs.getD j 0 →
      (aic_weights_val E xs).getD j 0 ≤ (aic_weights_val E xs).getD i 0) ∧
    (∀ i j : ℕ, i < xs.length → j < xs.length →
      (∀ t : ℕ, t < xs.length → xs.getD i 0 ≤ xs.getD t 0) →
      (aic_weights_val E xs).getD j 0 ≤ (aic_weights_val E xs).getD i 0) := by
  have hprops := aicw_props E xs ((npmin xs).getD 0) hpos hmono hne
  have hok : aic_weights E (.seq xs) = .ok (aic_weights_val E xs) := by
    obtain ⟨a, l, rfl⟩ := List.exists_cons_of_ne_nil hne
    rfl
  refine ⟨hok, hprops.1, hprops.2.1, hprops.2.2.1, hprops.2.2.2, ?_⟩
  intro i j hi hj hmin
  exact hprops.2.2.2 i j hi hj (hmin j hj)

/-- Witness for C9 at `E = fun _ => 1`, `xs = [3, 5]`. -/
theorem aic_weights_seq_props_witness :
    aic_weights (fun _ => 1) (.seq [3, 5]) =
      .ok (aic_weights_val (fun _ => 1) [3, 5]) ∧
    (aic_weights_val (fun _ => (1 : ℚ)) [3, 5]).sum = 1 ∧
    (aic_weights_val (fun _ => (1 : ℚ)) [3, 5]).length = 2 := by
  have h := aic_weights_seq_props (fun _ => 1) [3, 5]
    (fun q => one_pos) (fun a b hab => le_refl 1) (by decide)
  refine ⟨h.1, h.2.1, ?_⟩
  rw [h.2.2.2.1]
  rfl

/-! ## Batch orchestration output layer (`macroeco/main.py`) -/

/-- The fixed `metric_types` dictionary in main.py:
`{'sad': 'dist', 'sar': 'curve', 'ear': 'curve', 'ssad': 'dist'}`, as a
lookup returning `none` on a missing key (Python `KeyError`). -/
def metric_types (s : String) : Option String :=
  if s = "sad" then some "dist"
  else if s = "sar" then some "curve"
  else if s = "ear" then some "curve"
  else if s = "ssad" then some "dist"
  else none

/-- Embeds `_check_metric(options)`: an absent `metric` option yields `None`;
a name present in `metric_types` yields its type string; any other name makes
the dictionary lookup raise, caught and re-raised as `NotImplementedError`. -/
def _check_metric (metric : Option String) : Except PyErr (Option String) :=
  match metric with
  | none => .ok none
  | some m =>
    match metric_types m with
    | some t => .ok (some t)
    | none => .error .notImplemented

/-- The three data-vs-prediction comparison outputs for distribution
metrics. -/
inductive TKind
  | rad
  | cdf
  | pdf
  deriving DecidableEq

/-- Files written into `run_dir` by the output layer; `split` is the 1-based
split index prefixed to the file name (`<split>_<name>`). -/
inductive WFile
  | splitIndex
  | fittedParams (split : ℕ)
  | dataPredCsv (kind : TKind) (split : ℕ)
  | dataPredPlot (kind : TKind) (split : ℕ)
  | testStatistics (split : ℕ)
  deriving DecidableEq

/-- Outcome of a stretch of the output layer: the files written, in order,
and the Python exception (if any) that aborted it. -/
abbrev WRes := List WFile × Option PyErr

/-- Sequencing of write steps: the second step runs only if the first did not
raise; files written before an exception stay on disk. -/
def wseq (r : WRes) (k : WRes) : WRes :=
  match r with
  | (fs, some e) => (fs, some e)
  | (fs, none) => (fs ++ k.1, k.2)

/-- Python truthiness of an optional list (`if results:`): `None` and the
empty list are falsy. -/
def truthy {α : Type} : Option (List α) → Bool
  | none => false
  | some l => !l.isEmpty

/-- Embeds `_write_fitted_params`: writes the per-split `fitted_params.csv`
by iterating `for model in models`; when `models` is `None` (no `models`
option) the iteration itself raises `TypeError`. -/
def _write_fitted_params (cidx : ℕ) (models : Option (List String)) : WRes :=
  match models with
  | none => ([], some .typeError)
  | some _ => ([.fittedParams (cidx + 1)], none)

/-- Embeds `_save_table_and_plot`: first iterates `for model in models` to
add one predicted column per model (a `TypeError` when `models` is `None`,
before anything is written), then writes the CSV table and the plot image. -/
def _save_table_and_plot (cidx : ℕ) (models : Option (List String))
    (kind : TKind) : WRes :=
  match models with
  | none => ([], some .typeError)
  | some _ =>
    ([.dataPredCsv kind (cidx + 1), .dataPredPlot kind (cidx + 1)], none)

/-- Embeds `_data_pred_dist`: the three comparisons, in source order RAD,
CDF, PDF/PMF. -/
def _data_pred_dist (cidx : ℕ) (models : Option (List String)) : WRes :=
  wseq (_save_table_and_plot cidx models .rad)
    (wseq (_save_table_and_plot cidx models .cdf)
      (_save_table_and_plot cidx models .pdf))

/-- Embeds `_data_pred_curve`: unconditionally raises
`NotImplementedError("Data and curve comparison not implemented")`. -/
def _data_pred_curve (cidx : ℕ) (models : Option (List String)) : WRes :=
  ([], some .notImplemented)

/-- Embeds `_write_and_plot_data_pred`: dispatches on
`options['metric_type']`; a metric type that is neither `'dist'` nor
`'curve'` (i.e. `None`) writes nothing. -/
def _write_and_plot_data_pred (cidx : ℕ) (models : Option (List String))
    (metric_type : Option String) : WRes :=
  if metric_type = some "dist" then _data_pred_dist cidx models
  else if metric_type = some "curve" then _data_pred_curve cidx models
  else ([], none)

/-- One iteration of `_write_output`'s loop over split index `cidx`:
fitted params if model results are truthy, data-vs-prediction if empirical
results are truthy, test statistics if both are. -/
def _write_output_step (metric_type : Option String)
    (models : Option (List String)) (modT empT : Bool) (cidx : ℕ) : WRes :=
  wseq (if modT then _write_fitted_params cidx models else ([], none))
    (wseq
      (if empT then _write_and_plot_data_pred cidx models metric_type
       else ([], none))
      (if modT && empT then ([.testStatistics (cidx + 1)], none)
       else ([], none)))

/-- The loop `for cidx in range(n_splits)` of `_write_output`. -/
def _write_output_loop (metric_type : Option String)
    (models : Option (List String)) (modT empT : Bool) : List ℕ → WRes
  | [] => ([], none)
  | c :: cs =>
    wseq (_write_output_step metric_type models modT empT c)
      (_write_output_loop metric_type models modT empT cs)

/-- `n_splits` in `_write_output`: `len(emp_results)` and, when that raises
(`emp_results` is `None`), `len(mod_results)`; when both are `None` the
second `len(None)` raises `TypeError` out of the except-branch. -/
def n_splits {α β : Type} (emp : Option (List α)) (modr : Option (List β)) :
    Except PyErr ℕ :=
  match emp with
  | some l => .ok l.length
  | none =>
    match modr with
    | some l => .ok l.length
    | none => .error .typeError

/-- Embeds `_write_output(options, emp_results, mod_results)`.
`metric_type` is `options['metric_type']` and `models` the parsed
`options['models']` (`None` exactly when the option is absent; `str.split`
never returns an empty list, so a present option parses to a nonempty
list). -/
def _write_output {α β : Type} (metric_type : Option String)
    (models : Option (List String)) (emp : Option (List α))
    (modr : Option (List β)) : WRes :=
  match n_splits emp modr with
  | .error e => ([], some e)
  | .ok n =>
    _write_output_loop metric_type models (truthy modr) (truthy emp)
      (List.range n)

/-- Embeds `_write_split_index_file`: nothing when `emp_results` is `None` or
empty (`if not emp_results: return`), else the single `_split_index.csv`
listing every split. -/
def _write_split_index_file {α : Type} (emp : Option (List α)) : List WFile :=
  match emp with
  | none => []
  | some [] => []
  | some (_ :: _) => [WFile.splitIndex]

/-- Embeds `_save_results`: `run_dir` is wiped and recreated first, so the
trace below is the directory's complete content; then the split index file,
then `_write_output`. -/
def _save_results {α β : Type} (metric_type : Option String)
    (models : Option (List String)) (emp : Option (List α))
    (modr : Option (List β)) : WRes :=
  wseq (_write_split_index_file emp, none)
    (_write_output metric_type models emp modr)

/-! ## Theorems for the orchestration output layer -/

/-- C4: `_check_metric` yields `None` when the metric option is absent, maps
`sad`, `sar`, `ear`, `ssad` to `"dist"`, `"curve"`, `"curve"`, `"dist"`
respectively, and fails with the NotSupported error
(`NotImplementedError`) for every other metric name. -/
theorem check_metric_table :
    _check_metric none = .ok none ∧
    _check_metric (some "sad") = .ok (some "dist") ∧
    _check_metric (some "sar") = .ok (some "curve") ∧
    _check_metric (some "ear") = .ok (some "curve") ∧
    _check_metric (some "ssad") = .ok (some "dist") ∧
    ∀ s : String, s ∉ (["sad", "sar", "ear", "ssad"] : List String) →
      _check_metric (some s) = .error .notImplemented := by
  refine ⟨rfl, rfl, rfl, rfl, rfl, ?_⟩
  intro s hs
  simp only [List.mem_cons, List.not_mem_nil, or_false, not_or] at hs
  obtain ⟨h1, h2, h3, h4⟩ := hs
  simp [_check_metric, metric_types, h1, h2, h3, h4]

/-- Witness for C4 at the unrecognized metric name `"foo"`. -/
theorem check_metric_table_witness :
    _check_metric (some "foo") = .error .notImplemented :=
  check_metric_table.2.2.2.2.2 "foo" (by decide)

/-- If the first step of a write sequence raises, the sequence raises the
same exception. -/
theorem wseq_snd_of_err (r k : WRes) (e : PyErr) (h : r.2 = some e) :
    (wseq r k).2 = some e := by
  obtain ⟨fs, e'⟩ := r
  cases e' with
  | none => exact absurd h (by simp)
  | some e'' => simpa [wseq] using h

/-- A crashing head step determines the whole loop's outcome. -/
theorem loop_cons_err (mt : Option String) (models : Option (List String))
    (modT empT : Bool) (c : ℕ) (cs : List ℕ) (fs : List WFile) (e : PyErr)
    (h : _write_output_step mt models modT empT c = (fs, some e)) :
    _write_output_loop mt models modT empT (c :: cs) = (fs, some e) := by
  simp only [_write_output_loop, h, wseq]

/-- C2: the claim (spec §8, property 10, and `_write_output`'s own docstring
"Data and pred (always if there is data, although no pred if no models)")
says a `metric=sad` run with no `models` key produces `_split_index.csv`
plus, per split, the three `data_pred_{rad,cdf,pdf}.csv` files and no
`fitted_params.csv` or `test_statistics.csv`.  In the code such a run sets
`models = None`, and `_save_table_and_plot` executes `for model in models`,
raising `TypeError` before writing any table: the run aborts after writing
only `_split_index.csv` and produces none of the `data_pred_*` files. -/
theorem sad_run_without_models_crashes :
    ∀ emp : List Unit, emp ≠ [] →
      _save_results (some "dist") none (some emp)
        (none : Option (List Unit)) =
      ([WFile.splitIndex], some PyErr.typeError) := by
  intro emp hne
  obtain ⟨a, l, rfl⟩ := List.exists_cons_of_ne_nil hne
  have hstep : _write_output_step (some "dist") none false true 0 =
      ([], some PyErr.typeError) := rfl
  have hloop : _write_output_loop (some "dist") none false true
      (List.range (a :: l).length) = ([], some PyErr.typeError) := by
    rw [List.length_cons, List.range_succ_eq_map]
    exact loop_cons_err _ _ _ _ _ _ _ _ hstep
  have hout : _write_output (some "dist") none (some (a :: l))
      (none : Option (List Unit)) = ([], some PyErr.typeError) := by
    simp only [_write_output, n_splits]
    simpa [truthy] using hloop
  simp [_save_results, _write_split_index_file, hout, wseq]

/-- Witness for C2 at the one-split empirical result `[()]`. -/
theorem sad_run_without_models_crashes_witness :
    _save_results (some "dist") none (some [()])
      (none : Option (List Unit)) =
    ([WFile.splitIndex], some PyErr.typeError) :=
  sad_run_without_models_crashes [()] (by decide)

/-- C3 counterexample: a curve-type run with empirical results but no model
results does fail with the NotSupported error (`NotImplementedError`),
contrary to the claim that failure requires both to be present:
`_data_pred_curve` raises unconditionally whenever empirical results exist. -/
theorem curve_emp_no_models_fails_counterexample :
    _write_output (some "curve") none (some [()])
      (none : Option (List Unit)) = ([], some PyErr.notImplemented) := by
  rfl

/-- If the first step of a write sequence does not raise, the sequence's
outcome is the second step's. -/
theorem wseq_snd_of_ok (r k : WRes) (h : r.2 = none) :
    (wseq r k).2 = k.2 := by
  obtain ⟨fs, e⟩ := r
  cases e with
  | none => simp [wseq]
  | some e' => simp at h

/-- Truthiness implies presence. -/
theorem isSome_of_truthy {α : Type} (o : Option (List α))
    (h : truthy o = true) : o.isSome = true := by
  cases o with
  | none => exact absurd h (by simp [truthy])
  | some l => rfl

/-- Without empirical results the output loop never raises (under main's
invariant that model results exist only when a `models` option was parsed). -/
theorem loop_no_emp_ok (mt : Option String) (models : Option (List String))
    (modT : Bool) (hm : modT = true → models.isSome = true) :
    ∀ cs : List ℕ, (_write_output_loop mt models modT false cs).2 = none := by
  intro cs
  induction cs with
  | nil => rfl
  | cons c t ih =>
    have hstep : (_write_output_step mt models modT false c).2 = none := by
      cases modT with
      | false => rfl
      | true =>
        obtain ⟨ms, hms⟩ := Option.isSome_iff_exists.mp (hm rfl)
        simp [_write_output_step, _write_fitted_params, wseq, hms]
    show (wseq (_write_output_step mt models modT false c)
      (_write_output_loop mt models modT false t)).2 = none
    rw [wseq_snd_of_ok _ _ hstep, ih]

/-- With empirical results, a curve-type step always dies in
`_data_pred_curve`. -/
theorem step_curve_with_emp (models : Option (List String)) (modT : Bool)
    (hm : modT = true → models.isSome = true) (c : ℕ) :
    (_write_output_step (some "curve") models modT true c).2 =
      some PyErr.notImplemented := by
  cases modT with
  | false => rfl
  | true =>
    obtain ⟨ms, hms⟩ := Option.isSome_iff_exists.mp (hm rfl)
    simp [_write_output_step, _write_fitted_params, _write_and_plot_data_pred,
      _data_pred_curve, wseq, hms]

/-- C3 amended: for a curve-type run (yielding `main`'s invariant that model
results exist only when the `models` option does), the data-vs-prediction
stage fails with the NotSupported error iff empirical results are present and
nonempty — regardless of whether model results are present. -/
theorem curve_write_output_fails_iff_emp {α β : Type}
    (emp : Option (List α)) (modr : Option (List β))
    (models : Option (List String))
    (hconsistent : modr.isSome = true → models.isSome = true) :
    ((_write_output (some "curve") models emp modr).2 =
      some PyErr.notImplemented) ↔ truthy emp = true := by
  cases emp with
  | none =>
    cases modr with
    | none => simp [_write_output, n_splits, truthy]
    | some l =>
      have hloop := loop_no_emp_ok (some "curve") models (truthy (some l))
        (fun ht => hconsistent (by simp)) (List.range l.length)
      show (_write_output_loop (some "curve") models (truthy (some l))
          (truthy (none : Option (List α))) (List.range l.length)).2 =
          some PyErr.notImplemented ↔ truthy (none : Option (List α)) = true
      rw [show truthy (none : Option (List α)) = false from rfl, hloop]
      simp
  | some es =>
    cases es with
    | nil =>
      show (_write_output_loop (some "curve") models (truthy modr)
          (truthy (some ([] : List α))) (List.range 0)).2 =
          some PyErr.notImplemented ↔ truthy (some ([] : List α)) = true
      simp [_write_output_loop, truthy]
    | cons a t =>
      have hstep := step_curve_with_emp models (truthy modr)
        (fun ht => hconsistent (isSome_of_truthy modr ht)) 0
      show (_write_output_loop (some "curve") models (truthy modr)
          (truthy (some (a :: t))) (List.range (a :: t).length)).2 =
          some PyErr.notImplemented ↔ truthy (some (a :: t)) = true
      rw [show truthy (some (a :: t)) = true from rfl, List.length_cons,
        List.range_succ_eq_map]
      have hl : (_write_output_loop (some "curve") models (truthy modr) true
          (0 :: (List.range t.length).map Nat.succ)).2 =
          some PyErr.notImplemented := by
        simp only [_write_output_loop]
        exact wseq_snd_of_err _ _ _ hstep
      rw [hl]
      simp

/-- Witness for the amended C3 at empirical results `[()]`, no model
results. -/
theorem curve_write_output_fails_iff_emp_witness :
    ((_write_output (some "curve") (none : Option (List String)) (some [()])
      (none : Option (List Unit))).2 = some PyErr.notImplemented) ↔
    truthy (some [()]) = true :=
  curve_write_output_fails_iff_emp (some [()]) none none (by decide)

/-! ## Desktop launcher (`analyze.py`) -/

/-- Python strings, modelled as character lists. -/
abbrev PyStr := List Char

/-- Python `str.split(sep)` for a one-character separator: splits at every
occurrence, keeping empty pieces (`"a..b".split('.') == ['a','','b']`,
`"".split('.') == ['']`); the result is never empty. -/
def splitOnChar (c : Char) : PyStr → List PyStr
  | [] => [[]]
  | x :: xs =>
    match splitOnChar c xs with
    | [] => [[x]]
    | h :: t => if x = c then [] :: h :: t else (x :: h) :: t

/-- Python `sep.join(pieces)`. -/
def pyjoin (sep : PyStr) : List PyStr → PyStr
  | [] => []
  | [x] => x
  | x :: y :: xs => x ++ sep ++ pyjoin sep (y :: xs)

/-- Embeds `Chooser.output_name(textlist)`:
`'_'.join(text.split("/")[-1].split('.')[0] for text in textlist)`.
(`str.split` never returns an empty list, so the `getLastD`/`headD` defaults
are unreachable.) -/
def output_name (textlist : List PyStr) : PyStr :=
  pyjoin ['_'] (textlist.map (fun text =>
    (splitOnChar '.' ((splitOnChar '/' text).getLastD [])).headD []))

/-- `os.path.join(base, rel)` for an absolute `base` without trailing slash
and a relative `rel` — the only case `call_script` exercises, since its list
entries come from globbing the relative patterns `data/formatted/*/*.csv`
and `code/*.py`. -/
def ospj (base rel : PyStr) : PyStr := base ++ '/' :: rel

/-- The line appended to `logfile.txt` per launch:
`dt.strftime("%Y %I:%M%p UTC") + " :\t" + dpath + "\t" + spath + '\n'`;
`ts` stands for the formatted `datetime.utcnow()` stamp. -/
def logline (ts dpath spath : PyStr) : PyStr :=
  ts ++ " :\t".toList ++ dpath ++ '\t' :: spath ++ ['\n']

/-- One subprocess launched by `call_script`:
`Popen(["python", spath, dpath, outputID], cwd=output, shell=False, ...)`. -/
structure Launch where
  spath : PyStr
  dpath : PyStr
  outputID : PyStr
  cwd : PyStr
  deriving DecidableEq

/-- The inner loop of `call_script` over the selected analysis scripts for a
fixed dataset: one log line and one subprocess per script. -/
def call_script_inner (base ts output data : PyStr) :
    List PyStr → List PyStr × List Launch
  | [] => ([], [])
  | script :: rest =>
    let dpath := ospj base data
    let spath := ospj base script
    let r := call_script_inner base ts output data rest
    (logline ts dpath spath :: r.1,
     ⟨spath, dpath, output_name [script, data], output⟩ :: r.2)

/-- Embeds `Chooser.call_script` for one press of Run: the nested loop over
every selected dataset (outer) × every selected script (inner), appending
one `logfile.txt` line and launching one detached subprocess per pair.
`base` is the launcher's own directory (`METEbase`), `ts` the formatted
timestamp (`datetime.utcnow()` is re-read each iteration; it is modelled as
one ambient stamp), and `output` the chosen output directory. -/
def call_script (base ts output : PyStr) :
    List PyStr → List PyStr → List PyStr × List Launch
  | [], _ => ([], [])
  | data :: ds, scripts =>
    let r1 := call_script_inner base ts output data scripts
    let r2 := call_script base ts output ds scripts
    (r1.1 ++ r2.1, r1.2 ++ r2.2)

/-- Spec-side (for C10): everything after the last occurrence of `c` — the
final `c`-separated component, the whole string when `c` does not occur. -/
def afterLast (c : Char) : PyStr → PyStr
  | [] => []
  | x :: xs => if c ∈ xs then afterLast c xs else if x = c then xs else x :: xs

/-! ## Properties of the Python string-splitting model -/

/-- `str.split` never returns an empty list. -/
theorem splitOnChar_ne_nil (c : Char) (s : PyStr) : splitOnChar c s ≠ [] := by
  cases s with
  | nil => simp [splitOnChar]
  | cons x xs =>
    simp only [splitOnChar]
    rcases hsp : splitOnChar c xs with _ | ⟨hd, tl⟩
    · simp
    · by_cases hx : x = c <;> simp [hx]

/-- The first piece of a split is the characters before the first
separator. -/
theorem splitOnChar_head (c : Char) (s : PyStr) :
    (splitOnChar c s).headD [] = s.takeWhile (fun ch => ch != c) := by
  induction s with
  | nil => rfl
  | cons x xs ih =>
    simp only [splitOnChar]
    rcases hsp : splitOnChar c xs with _ | ⟨hd, tl⟩
    · exact absurd hsp (splitOnChar_ne_nil c xs)
    · rw [hsp] at ih
      by_cases hx : x = c
      · subst hx
        simp [List.takeWhile_cons]
      · simp only [if_neg hx, List.headD, List.takeWhile_cons]
        simp only [List.headD] at ih
        simp [hx, ih]

/-- Splitting a string that lacks the separator yields a singleton. -/
theorem splitOnChar_not_mem (c : Char) (s : PyStr) (h : c ∉ s) :
    splitOnChar c s = [s] := by
  induction s with
  | nil => rfl
  | cons x xs ih =>
    have hx : x ≠ c := fun hh => h (hh ▸ List.mem_cons_self x xs)
    have hxs : c ∉ xs := fun hh => h (List.mem_cons_of_mem x hh)
    simp only [splitOnChar, ih hxs]
    simp [hx]

/-- Splitting a string containing the separator yields at least two
pieces. -/
theorem splitOnChar_mem_length (c : Char) (s : PyStr) (h : c ∈ s) :
    2 ≤ (splitOnChar c s).length := by
  induction s with
  | nil => simp at h
  | cons x xs ih =>
    simp only [splitOnChar]
    rcases hsp : splitOnChar c xs with _ | ⟨hd, tl⟩
    · exact absurd hsp (splitOnChar_ne_nil c xs)
    · by_cases hx : x = c
      · simp [hx]
      · have hxs : c ∈ xs := by
          rcases List.mem_cons.mp h with h1 | h2
          · exact absurd h1.symm hx
          · exact h2
        have h2 := ih hxs
        rw [hsp] at h2
        simp only [if_neg hx, List.length_cons]
        simp only [List.length_cons] at h2
        omega

/-- A string without the separator is its own final component. -/
theorem afterLast_not_mem (c : Char) (s : PyStr) (h : c ∉ s) :
    afterLast c s = s := by
  cases s with
  | nil => rfl
  | cons x xs =>
    have hx : x ≠ c := fun hh => h (hh ▸ List.mem_cons_self x xs)
    have hxs : c ∉ xs := fun hh => h (List.mem_cons_of_mem x hh)
    simp [afterLast, hxs, hx]

/-- The last piece of a split is the final separator-separated component. -/
theorem splitOnChar_last (c : Char) (s : PyStr) :
    (splitOnChar c s).getLastD [] = afterLast c s := by
  induction s with
  | nil => rfl
  | cons x xs ih =>
    simp only [splitOnChar, afterLast]
    rcases hsp : splitOnChar c xs with _ | ⟨hd, tl⟩
    · exact absurd hsp (splitOnChar_ne_nil c xs)
    · rw [hsp] at ih
      by_cases hm : c ∈ xs
      · rw [if_pos hm]
        have h2 := splitOnChar_mem_length c xs hm
        rw [hsp] at h2
        cases tl with
        | nil => simp at h2
        | cons t0 ts =>
          show (if x = c then ([] : PyStr) :: hd :: t0 :: ts
            else (x :: hd) :: t0 :: ts).getLastD [] = afterLast c xs
          by_cases hx : x = c
          · rw [if_pos hx]
            rw [show (([] : PyStr) :: hd :: t0 :: ts).getLastD [] =
              (t0 :: ts).getLastD hd from rfl]
            rw [show ((hd : PyStr) :: t0 :: ts).getLastD [] =
              (t0 :: ts).getLastD hd from rfl] at ih
            exact ih
          · rw [if_neg hx]
            rw [show (((x :: hd) : PyStr) :: t0 :: ts).getLastD [] =
              (t0 :: ts).getLastD (x :: hd) from rfl]
            rw [show ((hd : PyStr) :: t0 :: ts).getLastD [] =
              (t0 :: ts).getLastD hd from rfl] at ih
            rw [← ih]
            cases ts with
            | nil => rfl
            | cons u us => rfl
      · rw [if_neg hm]
        have hsing := splitOnChar_not_mem c xs hm
        rw [hsing] at hsp
        injection hsp with h1 h2
        subst h1
        subst h2
        show (if x = c then ([] : PyStr) :: xs :: ([] : List PyStr)
          else (x :: xs) :: ([] : List PyStr)).getLastD [] =
          if x = c then xs else x :: xs
        by_cases hx : x = c
        · simp [hx]
        · simp [hx]

/-- Each log line starts with the timestamp and contains the dataset path
and the script path. -/
theorem logline_parts (ts dpath spath : PyStr) :
    (∃ rest, logline ts dpath spath = ts ++ rest) ∧
    (∃ p q, logline ts dpath spath = p ++ dpath ++ q) ∧
    (∃ p q, logline ts dpath spath = p ++ spath ++ q) := by
  refine ⟨⟨" :\t".toList ++ dpath ++ '\t' :: spath ++ ['\n'], ?_⟩,
    ⟨ts ++ " :\t".toList, '\t' :: spath ++ ['\n'], ?_⟩,
    ⟨ts ++ " :\t".toList ++ dpath ++ ['\t'], ['\n'], ?_⟩⟩ <;>
    simp [logline]

/-- The inner loop produces one line and one launch per selected script. -/
theorem call_script_inner_eq (base ts output data : PyStr)
    (scripts : List PyStr) :
    call_script_inner base ts output data scripts =
      (scripts.map (fun s => logline ts (ospj base data) (ospj base s)),
       scripts.map (fun s =>
         (⟨ospj base s, ospj base data, output_name [s, data], output⟩ :
           Launch))) := by
  induction scripts with
  | nil => rfl
  | cons s rest ih => simp [call_script_inner, ih]

/-- `call_script` produces the full dataset × script cross product. -/
theorem call_script_eq (base ts output : PyStr) (ds ss : List PyStr) :
    call_script base ts output ds ss =
      (ds.flatMap (fun d => ss.map (fun s =>
         logline ts (ospj base d) (ospj base s))),
       ds.flatMap (fun d => ss.map (fun s =>
         (⟨ospj base s, ospj base d, output_name [s, d], output⟩ :
           Launch)))) := by
  induction ds with
  | nil => rfl
  | cons d rest ih => simp [call_script, call_script_inner_eq, ih]

/-- Counting lemma for `call_script`. -/
theorem call_script_counts (base ts output : PyStr) (ds ss : List PyStr) :
    (call_script base ts output ds ss).1.length = ds.length * ss.length ∧
    (call_script base ts output ds ss).2.length = ds.length * ss.length := by
  induction ds with
  | nil => simp [call_script]
  | cons d rest ih =>
    have h1 := ih.1
    have h2 := ih.2
    constructor
    · simp [call_script, call_script_inner_eq, h1]
      ring
    · simp [call_script, call_script_inner_eq, h2]
      ring

/-- C7: one press of Run with the selected datasets `ds` and selected
scripts `ss` appends exactly `|ds| * |ss|` lines to `logfile.txt` and
launches exactly `|ds| * |ss|` subprocesses, one per dataset × script pair;
every line is a log line for some selected pair, beginning with the UTC
timestamp and containing the dataset path and the script path, and every
pair gets its line and its subprocess. -/
theorem call_script_cross_product (base ts output : PyStr)
    (ds ss : List PyStr) :
    (call_script base ts output ds ss).1.length = ds.length * ss.length ∧
    (call_script base ts output ds ss).2.length = ds.length * ss.length ∧
    (∀ line ∈ (call_script base ts output ds ss).1,
      ∃ d ∈ ds, ∃ s ∈ ss,
        line = logline ts (ospj base d) (ospj base s) ∧
        (∃ rest, line = ts ++ rest) ∧
        (∃ p q, line = p ++ ospj base d ++ q) ∧
        (∃ p q, line = p ++ ospj base s ++ q)) ∧
    (∀ d ∈ ds, ∀ s ∈ ss,
      logline ts (ospj base d) (ospj base s) ∈
        (call_script base ts output ds ss).1 ∧
      (⟨ospj base s, ospj base d, output_name [s, d], output⟩ : Launch) ∈
        (call_script base ts output ds ss).2) := by
  refine ⟨(call_script_counts base ts output ds ss).1,
    (call_script_counts base ts output ds ss).2, ?_, ?_⟩
  · intro line hline
    rw [call_script_eq] at hline
    simp only [List.mem_flatMap, List.mem_map] at hline
    obtain ⟨d, hd, s, hs, rfl⟩ := hline
    exact ⟨d, hd, s, hs, rfl,
      (logline_parts ts (ospj base d) (ospj base s)).1,
      (logline_parts ts (ospj base d) (ospj base s)).2.1,
      (logline_parts ts (ospj base d) (ospj base s)).2.2⟩
  · intro d hd s hs
    constructor
    · rw [call_script_eq]
      simp only [List.mem_flatMap, List.mem_map]
      exact ⟨d, hd, s, hs, rfl⟩
    · rw [call_script_eq]
      simp only [List.mem_flatMap, List.mem_map]
      exact ⟨d, hd, s, hs, rfl⟩

/-- Witness for C7 with two selected datasets and one selected script (spec
§8, property 12): exactly two log lines and two subprocesses. -/
theorem call_script_cross_product_witness :
    (call_script ("/b".toList) ("TS".toList) ("/o".toList)
      [("d1".toList), ("d2".toList)] [("a1".toList)]).1.length = 2 ∧
    (call_script ("/b".toList) ("TS".toList) ("/o".toList)
      [("d1".toList), ("d2".toList)] [("a1".toList)]).2.length = 2 := by
  have h := call_script_cross_product ("/b".toList) ("TS".toList)
    ("/o".toList) [("d1".toList), ("d2".toList)] [("a1".toList)]
  exact ⟨h.1.trans (by decide), h.2.1.trans (by decide)⟩

/-- C10: the output identifier is the portion of the script path's final
'/'-separated component before its first '.', an underscore, and the same
transformation of the dataset path; a base name that itself contains a dot
is truncated at its first dot (not merely stripped of its extension), as the
concrete instance shows. -/
theorem output_name_first_dot (script data : PyStr) :
    output_name [script, data] =
      (afterLast '/' script).takeWhile (fun ch => ch != '.') ++
      '_' :: (afterLast '/' data).takeWhile (fun ch => ch != '.') ∧
    output_name [("code/analysis.v2.py".toList),
      ("data/formatted/plot1/census.tar.csv".toList)] =
      "analysis_census".toList := by
  have h : ∀ t : PyStr,
      (splitOnChar '.' ((splitOnChar '/' t).getLastD [])).headD [] =
      (afterLast '/' t).takeWhile (fun ch => ch != '.') := fun t => by
    rw [splitOnChar_head, splitOnChar_last]
  constructor
  · simp only [output_name, List.map_cons, List.map_nil, pyjoin]
    rw [h script, h data]
    simp
  · decide
